import Mathlib

/-!
Shallow embedding of the order-book synchronization and aggregation engine of
`src/services/marketService.ts` (repository `cnrpman/orderbook_canyon`).

Prices, quantities and update ids are modelled as rationals / integers.
JavaScript `Map<number, number>` objects are modelled as insertion-ordered
association lists (`ListStore`) with the `Map` operations `set`, `delete`,
`get` and key/entry iteration; the spec's data model declares the store
"unordered at rest", so store state is compared by `mapLookup`-extensionality.
-/

namespace OrderbookCanyon

/-- Constant `AGGREGATION_BUCKET_SIZE = 2.0` from `marketService.ts`. -/
def AGGREGATION_BUCKET_SIZE : ℚ := 2

/-- Constant `VISUAL_BUCKETS = 60` from `marketService.ts`. -/
def VISUAL_BUCKETS : ℕ := 60

/-- Interface `OrderEntry` of `src/types.ts`: one aggregation bucket. -/
structure OrderEntry where
  price : ℚ
  quantity : ℚ
  total : ℚ
deriving DecidableEq

/-- Interface `OrderBookSnapshot` of `src/types.ts` (the emitted view). -/
structure OrderBookSnapshot where
  timestamp : ℤ
  midPrice : ℚ
  bids : List OrderEntry
  asks : List OrderEntry
deriving DecidableEq

/-- A JavaScript `Map<number, number>` as its insertion-ordered entry list. -/
abbrev ListStore := List (ℚ × ℚ)

/-- JavaScript `map.set(p, q)`: replace in place when the key is present,
otherwise append the new entry at the end. -/
def mapSet (p q : ℚ) (m : ListStore) : ListStore :=
  if m.any (fun pr => decide (pr.1 = p)) then
    m.map (fun pr => if pr.1 = p then (p, q) else pr)
  else m ++ [(p, q)]

/-- JavaScript `map.delete(p)`: drop every entry with key `p`. -/
def mapDelete (p : ℚ) (m : ListStore) : ListStore :=
  m.filter (fun pr => decide (pr.1 ≠ p))

/-- JavaScript `map.get(p)` (as an `Option`). -/
def mapLookup (p : ℚ) (m : ListStore) : Option ℚ :=
  (m.find? (fun pr => decide (pr.1 = p))).map (fun pr => pr.2)

/-- Binance `depthUpdate` event (spec's `DiffEvent`): `U`/`u` are the first
and final update ids, `b`/`a` the bid/ask change lists. -/
structure DiffEvent where
  U : ℤ
  u : ℤ
  b : List (ℚ × ℚ)
  a : List (ℚ × ℚ)
deriving DecidableEq

/-- One iteration of the change loop in `processEvent`:
`if (qty === 0) map.delete(price); else map.set(price, qty);`. -/
def applyChange (m : ListStore) (c : ℚ × ℚ) : ListStore :=
  if c.2 = 0 then mapDelete c.1 m else mapSet c.1 c.2 m

/-- The change loop of `processEvent` over one side's change list. -/
def applyChanges (cs : List (ℚ × ℚ)) (m : ListStore) : ListStore :=
  cs.foldl applyChange m

/-- The pair of side maps `bidMap` / `askMap` of `subscribeToBinanceStream`. -/
structure BookStore where
  bidMap : ListStore
  askMap : ListStore
deriving DecidableEq

/-- Function `processEvent` of `marketService.ts`: apply the event's bid
changes to the bid map and its ask changes to the ask map. -/
def processEvent (e : DiffEvent) (s : BookStore) : BookStore :=
  { bidMap := applyChanges e.b s.bidMap
    askMap := applyChanges e.a s.askMap }

/-- Binance REST depth snapshot (spec's `BaselineSnapshot`). -/
structure Baseline where
  lastUpdateId : ℤ
  bids : List (ℚ × ℚ)
  asks : List (ℚ × ℚ)
deriving DecidableEq

/-- The `forEach`/`set` initialization of a side map from the snapshot lists
in `fetchSnapshot`. -/
def initSide (l : List (ℚ × ℚ)) : ListStore :=
  l.foldl (fun m pr => mapSet pr.1 pr.2 m) []

/-- The buffer filter of `fetchSnapshot`:
`eventBuffer.filter(e => e.u > lastUpdateId)`. -/
def validEvents (data : Baseline) (eventBuffer : List DiffEvent) : List DiffEvent :=
  eventBuffer.filter (fun e => decide (data.lastUpdateId < e.u))

/-- State held by the `subscribeToBinanceStream` closure that `fetchSnapshot`
touches: the `lastUpdateId` variable and the two side maps. -/
structure ConnState where
  lastUpdateId : ℤ
  book : BookStore
deriving DecidableEq

/-- Function `fetchSnapshot` of `marketService.ts` (its synchronous effect
once the HTTP response `data` is at hand, with `eventBuffer` the events
buffered so far): record `lastUpdateId`, initialize both maps from the
snapshot, filter the buffer by `e.u > lastUpdateId` and apply the surviving
events in arrival order with `processEvent`.  Nothing in the source ever
assigns `lastUpdateId` again after this. -/
def fetchSnapshot (data : Baseline) (eventBuffer : List DiffEvent) : ConnState :=
  { lastUpdateId := data.lastUpdateId
    book := (validEvents data eventBuffer).foldl (fun s e => processEvent e s)
      { bidMap := initSide data.bids, askMap := initSide data.asks } }

/-! ## Aggregation (`aggregateOrders`) -/

/-- The bucket index `Math.floor(Math.abs(price - midPrice) / AGGREGATION_BUCKET_SIZE)`. -/
def bucketIndex (midPrice price : ℚ) : ℤ :=
  ⌊|price - midPrice| / AGGREGATION_BUCKET_SIZE⌋

/-- One iteration of the distribution loop of `aggregateOrders`:
`if (index >= 0 && index < VISUAL_BUCKETS) bucketVolumes[index] += qty;`. -/
def addToBucket (midPrice : ℚ) (buckets : List ℚ) (pr : ℚ × ℚ) : List ℚ :=
  let index := bucketIndex midPrice pr.1
  if 0 ≤ index ∧ index < (VISUAL_BUCKETS : ℤ) then
    buckets.set index.toNat (buckets.getD index.toNat 0 + pr.2)
  else buckets

/-- The `bucketVolumes` dense array of `aggregateOrders` after the
distribution loop (initialized to `VISUAL_BUCKETS` zeros). -/
def bucketVolumes (rawOrders : List (ℚ × ℚ)) (midPrice : ℚ) : List ℚ :=
  rawOrders.foldl (addToBucket midPrice) (List.replicate VISUAL_BUCKETS 0)

/-- The result-building loop of `aggregateOrders`, as structural recursion on
the number `n` of buckets still to build, with `i` the next index and `cum`
the running `cumulativeTotal`. -/
def buildBuckets (vols : List ℚ) (isBid : Bool) (midPrice : ℚ) :
    ℕ → ℕ → ℚ → List OrderEntry
  | 0, _, _ => []
  | n + 1, i, cum =>
    let qty := vols.getD i 0
    let cumulativeTotal := cum + qty
    let bucketPrice :=
      if isBid then midPrice - i * AGGREGATION_BUCKET_SIZE
      else midPrice + i * AGGREGATION_BUCKET_SIZE
    { price := bucketPrice, quantity := qty, total := cumulativeTotal } ::
      buildBuckets vols isBid midPrice n (i + 1) cumulativeTotal

/-- Function `aggregateOrders` of `marketService.ts`: distribute the raw
entries into `VISUAL_BUCKETS` dense buckets by distance from `midPrice`, then
walk the buckets accumulating the cumulative total. -/
def aggregateOrders (rawOrders : List (ℚ × ℚ)) (isBid : Bool) (midPrice : ℚ) :
    List OrderEntry :=
  buildBuckets (bucketVolumes rawOrders midPrice) isBid midPrice VISUAL_BUCKETS 0 0

/-! ## Emission (`emitUpdate`) -/

/-- The best-bid scan of `emitUpdate`: `let bestBid = 0; for (k of
bidMap.keys()) if (k > bestBid) bestBid = k;`. -/
def bestBid (bidMap : ListStore) : ℚ :=
  bidMap.foldl (fun acc pr => if pr.1 > acc then pr.1 else acc) 0

/-- The best-ask scan of `emitUpdate`: `let bestAsk = Infinity; for (k of
askMap.keys()) if (k < bestAsk) bestAsk = k;` — `none` stands for the
`Infinity` sentinel. -/
def bestAsk (askMap : ListStore) : Option ℚ :=
  askMap.foldl (fun acc pr =>
    match acc with
    | none => some pr.1
    | some m => if pr.1 < m then some pr.1 else acc) none

/-- Function `emitUpdate` of `marketService.ts` (with `now` for
`Date.now()`): return early (no emission) when either map is empty, when the
best-bid scan is left at its `0` seed, or when the best-ask scan is left at
its `Infinity` seed; otherwise assemble the snapshot around the mid price. -/
def emitUpdate (now : ℤ) (bidMap askMap : ListStore) : Option OrderBookSnapshot :=
  if bidMap.isEmpty ∨ askMap.isEmpty then none
  else
    match bestAsk askMap with
    | none => none
    | some ba =>
      if bestBid bidMap = 0 then none
      else
        let midPrice := (bestBid bidMap + ba) / 2
        some { timestamp := now
               midPrice := midPrice
               bids := aggregateOrders bidMap true midPrice
               asks := aggregateOrders askMap false midPrice }

/-! ## Post-synchronization message handling and throttling -/

/-- State of the `ws.onmessage` handler once `hasSnapshot` is true: the book,
the `processing` throttle flag, and the number of `requestAnimationFrame`
callbacks currently queued. -/
structure StreamState where
  book : BookStore
  processing : Bool
  scheduled : ℕ
deriving DecidableEq

/-- The post-synchronization branch of `ws.onmessage` for a `depthUpdate`
message: `processEvent(data)` unconditionally, then, if `processing` is not
set, set it and queue one `requestAnimationFrame(() => { emitUpdate();
processing = false; })` callback. -/
def onDepthMessage (s : StreamState) (e : DiffEvent) : StreamState :=
  let book := processEvent e s.book
  if s.processing then { s with book := book }
  else { book := book, processing := true, scheduled := s.scheduled + 1 }

/-- An animation frame: every queued callback runs, each invoking
`emitUpdate` on the current book and clearing `processing`.  Returns the new
state and the list of snapshots actually handed to `onUpdate`. -/
def displayTick (now : ℤ) (s : StreamState) :
    StreamState × List OrderBookSnapshot :=
  ({ book := s.book, processing := false, scheduled := 0 },
   (List.range s.scheduled).filterMap
     (fun _ => emitUpdate now s.book.bidMap s.book.askMap))

/-! ## Auxiliary specification-side definitions used to state properties -/

/-- Last change listed for price `x` in a change list (later entries of the
list win, mirroring the sequential loop of `processEvent`). -/
def lastChange (x : ℚ) : List (ℚ × ℚ) → Option ℚ
  | [] => none
  | c :: cs =>
    match lastChange x cs with
    | some q => some q
    | none => if c.1 = x then some c.2 else none

/-- Total raw volume that the distribution loop of `aggregateOrders` assigns
to bucket `i`: the sum of the quantities of the raw entries whose computed
index is `i`. -/
def bucketSum (l : List (ℚ × ℚ)) (midPrice : ℚ) (i : ℕ) : ℚ :=
  ((l.filter (fun pr => decide (bucketIndex midPrice pr.1 = (i : ℤ)))).map
    (fun pr => pr.2)).sum

/-- Cumulative volume of buckets `0..i`. -/
def cumBucketSum (l : List (ℚ × ℚ)) (midPrice : ℚ) (i : ℕ) : ℚ :=
  ((List.range (i + 1)).map (bucketSum l midPrice)).sum

/-- Sum of `k` consecutive entries of `vols` starting at index `i`
(missing entries read as `0`). -/
def sumFrom (vols : List ℚ) (i k : ℕ) : ℚ :=
  ((List.range k).map (fun t => vols.getD (i + t) 0)).sum

/-! ## Lemmas on the JavaScript map operations -/

theorem mapLookup_cons (x : ℚ) (pr : ℚ × ℚ) (m : ListStore) :
    mapLookup x (pr :: m) = if pr.1 = x then some pr.2 else mapLookup x m := by
  by_cases h : pr.1 = x <;> simp [mapLookup, List.find?_cons, h]

theorem mapLookup_replace (p q x : ℚ) (m : ListStore) :
    mapLookup x (m.map (fun pr => if pr.1 = p then (p, q) else pr)) =
      if x = p then
        (if m.any (fun pr => decide (pr.1 = p)) then some q else none)
      else mapLookup x m := by
  induction m with
  | nil => by_cases h : x = p <;> simp [mapLookup, h]
  | cons pr m ih =>
    by_cases hpr : pr.1 = p
    · by_cases hx : x = p
      · simp [List.map_cons, hpr, hx, mapLookup_cons, List.any_cons]
      · have hne : pr.1 ≠ x := by rw [hpr]; exact fun hh => hx hh.symm
        have hpx : p ≠ x := fun hh => hx hh.symm
        simp [List.map_cons, hpr, hx, mapLookup_cons, hne, ih, hpx]
    · by_cases hx : pr.1 = x
      · have hxp : x ≠ p := by rw [← hx]; exact hpr
        simp [List.map_cons, hpr, hx, mapLookup_cons, hxp]
      · simp only [List.map_cons, if_neg hpr, mapLookup_cons, if_neg hx, ih,
          List.any_cons, decide_eq_false hpr, Bool.false_or]

theorem mapLookup_set (p q x : ℚ) (m : ListStore) :
    mapLookup x (mapSet p q m) = if x = p then some q else mapLookup x m := by
  unfold mapSet
  by_cases hany : m.any (fun pr => decide (pr.1 = p)) = true
  · rw [if_pos hany, mapLookup_replace, hany]
    simp
  · rw [if_neg hany]
    by_cases hx : x = p
    · subst hx
      have hnone : List.find? (fun pr => decide (pr.1 = x)) m = none := by
        rw [List.find?_eq_none]
        intro pr hpr
        simp only [decide_eq_true_eq]
        intro hk
        exact hany (List.any_eq_true.mpr ⟨pr, hpr, by simp [hk]⟩)
      simp [mapLookup, List.find?_append, hnone, List.find?_cons]
    · have hne : p ≠ x := fun hh => hx hh.symm
      simp [mapLookup, List.find?_append, List.find?_cons, hne, hx, Option.or_none]

theorem mapLookup_delete (p x : ℚ) (m : ListStore) :
    mapLookup x (mapDelete p m) = if x = p then none else mapLookup x m := by
  induction m with
  | nil => by_cases h : x = p <;> simp [mapLookup, mapDelete, h]
  | cons pr m ih =>
    by_cases hpr : pr.1 = p
    · have : mapDelete p (pr :: m) = mapDelete p m := by
        simp [mapDelete, List.filter_cons, hpr]
      rw [this, ih]
      by_cases hx : x = p
      · simp [hx]
      · have hne : pr.1 ≠ x := by rw [hpr]; exact fun hh => hx hh.symm
        simp [hx, mapLookup_cons, hne]
    · have : mapDelete p (pr :: m) = pr :: mapDelete p m := by
        simp [mapDelete, List.filter_cons, hpr]
      rw [this, mapLookup_cons, ih, mapLookup_cons]
      by_cases hx : pr.1 = x
      · have hxp : x ≠ p := by rw [← hx]; exact hpr
        simp [hx, hxp]
      · simp [hx]

theorem mapLookup_applyChange (m : ListStore) (c : ℚ × ℚ) (x : ℚ) :
    mapLookup x (applyChange m c) =
      if c.1 = x then (if c.2 = 0 then none else some c.2)
      else mapLookup x m := by
  unfold applyChange
  by_cases hz : c.2 = 0
  · rw [if_pos hz, mapLookup_delete]
    by_cases hc : c.1 = x
    · simp [hc, hz]
    · have : x ≠ c.1 := fun hh => hc hh.symm
      simp [hc, this]
  · rw [if_neg hz, mapLookup_set]
    by_cases hc : c.1 = x
    · simp [hc, hz]
    · have : x ≠ c.1 := fun hh => hc hh.symm
      simp [hc, this]

theorem mapLookup_applyChanges (cs : List (ℚ × ℚ)) (m : ListStore) (x : ℚ) :
    mapLookup x (applyChanges cs m) =
      match lastChange x cs with
      | none => mapLookup x m
      | some q => if q = 0 then none else some q := by
  induction cs generalizing m with
  | nil => rfl
  | cons c cs ih =>
    show mapLookup x (applyChanges cs (applyChange m c)) = _
    rw [ih]
    cases hlc : lastChange x cs with
    | some q => simp [lastChange, hlc]
    | none =>
      simp only [lastChange, hlc]
      rw [mapLookup_applyChange]
      by_cases hc : c.1 = x
      · by_cases hz : c.2 = 0 <;> simp [hc, hz]
      · simp [hc]

/-! ## Claim C7 -/

/-- C7: applying a change with quantity 0 for a price removes that price key
from the side map (leaving every other key untouched), and applying the same
`DiffEvent` twice leaves the same store state — the same price → quantity
mapping on both sides (the spec declares the store unordered at rest) — as
applying it once. -/
theorem C7_zero_removal_and_event_idempotent (s : ListStore) (p x : ℚ)
    (e : DiffEvent) (st : BookStore) :
    mapLookup p (applyChange s (p, 0)) = none ∧
    (x ≠ p → mapLookup x (applyChange s (p, 0)) = mapLookup x s) ∧
    mapLookup x (processEvent e (processEvent e st)).bidMap =
      mapLookup x (processEvent e st).bidMap ∧
    mapLookup x (processEvent e (processEvent e st)).askMap =
      mapLookup x (processEvent e st).askMap := by
  refine ⟨?_, ?_, ?_, ?_⟩
  · rw [mapLookup_applyChange]
    simp
  · intro hne
    rw [mapLookup_applyChange]
    simp only [if_neg (show (p, (0 : ℚ)).1 ≠ x from fun hh => hne hh.symm)]
  · show mapLookup x (applyChanges e.b (applyChanges e.b st.bidMap)) = _
    rw [mapLookup_applyChanges]
    cases hlc : lastChange x e.b with
    | none => rfl
    | some q =>
      rw [show (processEvent e st).bidMap = applyChanges e.b st.bidMap from rfl,
        mapLookup_applyChanges]
      simp [hlc]
  · show mapLookup x (applyChanges e.a (applyChanges e.a st.askMap)) = _
    rw [mapLookup_applyChanges]
    cases hlc : lastChange x e.a with
    | none => rfl
    | some q =>
      rw [show (processEvent e st).askMap = applyChanges e.a st.askMap from rfl,
        mapLookup_applyChanges]
      simp [hlc]

/-- Witness for C7 at concrete inputs: store `[(5,3),(7,4)]`, removal of
price 5 by a zero-quantity change, other key 7 untouched, and double
application of the event `⟨1, 2, [(5, 9), (8, 0)], [(11, 6)]⟩`. -/
theorem C7_zero_removal_and_event_idempotent_instance :
    mapLookup 5 (applyChange [(5, 3), (7, 4)] (5, 0)) = none ∧
    mapLookup 7 (applyChange [(5, 3), (7, 4)] (5, 0)) =
      mapLookup 7 [(5, 3), (7, 4)] ∧
    mapLookup 5 (processEvent ⟨1, 2, [(5, 9), (8, 0)], [(11, 6)]⟩
        (processEvent ⟨1, 2, [(5, 9), (8, 0)], [(11, 6)]⟩ ⟨[(5, 3), (7, 4)], []⟩)).bidMap =
      mapLookup 5 (processEvent ⟨1, 2, [(5, 9), (8, 0)], [(11, 6)]⟩
        ⟨[(5, 3), (7, 4)], []⟩).bidMap := by
  obtain ⟨h1, h2, h3, _⟩ :=
    C7_zero_removal_and_event_idempotent [(5, 3), (7, 4)] 5 7
      ⟨1, 2, [(5, 9), (8, 0)], [(11, 6)]⟩ ⟨[(5, 3), (7, 4)], []⟩
  exact ⟨h1, h2 (by decide), (C7_zero_removal_and_event_idempotent [(5, 3), (7, 4)] 5 5
      ⟨1, 2, [(5, 9), (8, 0)], [(11, 6)]⟩ ⟨[(5, 3), (7, 4)], []⟩).2.2.1⟩

/-! ## Claim C2 -/

/-- C2 counterexample: the claim that a quantity of 0 is never stored fails
on the code.  Baseline initialization (`fetchSnapshot`) stores quantities
verbatim, so a zero-quantity level `(99, 0)` in the baseline's bid list is
stored as an explicit entry; likewise `processEvent` stores a negative
quantity `-3` arriving in a `DiffEvent`, so the strict-positivity invariant
also fails through events. -/
theorem C2_counterexample :
    mapLookup 99 ((fetchSnapshot ⟨100, [(99, 0)], [(101, 1)]⟩ []).book.bidMap) =
      some 0 ∧
    mapLookup 55 ((processEvent ⟨1, 2, [(55, -3)], []⟩ ⟨[], []⟩).bidMap) =
      some (-3) := by
  exact ⟨by decide, by decide⟩

/-- C2 (amended): applying a `DiffEvent` never stores a zero-quantity entry —
a change with quantity 0 deletes its key, so any zero-quantity entry present
after `processEvent` was already present before it.  (Baseline
initialization, by contrast, stores entries verbatim, including zero or
negative quantities, and a negative quantity arriving in a `DiffEvent` is
stored, so strict positivity is not an invariant of the code.) -/
theorem C2_event_never_stores_zero (st : BookStore) (e : DiffEvent) (p : ℚ) :
    (mapLookup p (processEvent e st).bidMap = some 0 →
      mapLookup p st.bidMap = some 0) ∧
    (mapLookup p (processEvent e st).askMap = some 0 →
      mapLookup p st.askMap = some 0) := by
  constructor
  · intro h
    rw [show (processEvent e st).bidMap = applyChanges e.b st.bidMap from rfl,
      mapLookup_applyChanges] at h
    cases hlc : lastChange p e.b with
    | none => rwa [hlc] at h
    | some q =>
      simp only [hlc] at h
      by_cases hq : q = 0
      · rw [if_pos hq] at h; exact absurd h (by simp)
      · rw [if_neg hq] at h
        exact absurd (Option.some.inj h) hq
  · intro h
    rw [show (processEvent e st).askMap = applyChanges e.a st.askMap from rfl,
      mapLookup_applyChanges] at h
    cases hlc : lastChange p e.a with
    | none => rwa [hlc] at h
    | some q =>
      simp only [hlc] at h
      by_cases hq : q = 0
      · rw [if_pos hq] at h; exact absurd h (by simp)
      · rw [if_neg hq] at h
        exact absurd (Option.some.inj h) hq

/-- Witness for the amended C2: a pre-existing zero entry at price 7 survives
an event touching price 5, and is indeed traced back to the prior store. -/
theorem C2_event_never_stores_zero_instance :
    mapLookup 7 (processEvent ⟨1, 2, [(5, 4)], []⟩ ⟨[(7, 0)], []⟩).bidMap =
      some 0 ∧
    mapLookup 7 (⟨[(7, 0)], []⟩ : BookStore).bidMap = some 0 :=
  ⟨by decide,
    (C2_event_never_stores_zero ⟨[(7, 0)], []⟩ ⟨1, 2, [(5, 4)], []⟩ 7).1 (by decide)⟩

/-! ## Claim C1 -/

/-- C1: the code has no `DESYNCED` transition at all.  With baseline
`lastUpdateId = 100` and a buffered event `U = 105, u = 110` (a gap at
101–104), `fetchSnapshot` applies the gapped event to the store (price 50
appears); and after synchronization `ws.onmessage` applies an event with
`U = 500` (violating `U ≤ lastAppliedId + 1`) unconditionally. The comment in
`fetchSnapshot` states the bracketing requirement, but no code enforces it. -/
theorem C1_gapped_event_applied_no_desync :
    mapLookup 50 ((fetchSnapshot ⟨100, [(99, 1)], [(101, 1)]⟩
      [⟨105, 110, [(50, 1)], []⟩]).book.bidMap) = some 1 ∧
    mapLookup 42 ((onDepthMessage ⟨⟨[(99, 1)], [(101, 1)]⟩, false, 0⟩
      ⟨500, 510, [(42, 7)], []⟩).book.bidMap) = some 7 := by
  exact ⟨by decide, by decide⟩

/-! ## Claim C3 -/

/-- C3 counterexample: with baseline `lastUpdateId = 100` and buffered event
`U = 95, u = 102`, the event is applied (price 98 updated), but the stored
`lastUpdateId` remains 100 — it is never advanced to the event's
`finalUpdateId` 102, contrary to the claim. -/
theorem C3_counterexample :
    (fetchSnapshot ⟨100, [(99, 1)], [(101, 1)]⟩
      [⟨95, 102, [(98, 2)], []⟩]).lastUpdateId = 100 ∧
    (fetchSnapshot ⟨100, [(99, 1)], [(101, 1)]⟩
      [⟨95, 102, [(98, 2)], []⟩]).lastUpdateId ≠ 102 ∧
    mapLookup 98 ((fetchSnapshot ⟨100, [(99, 1)], [(101, 1)]⟩
      [⟨95, 102, [(98, 2)], []⟩]).book.bidMap) = some 2 := by
  exact ⟨by decide, by decide, by decide⟩

/-- C3 (amended): when the baseline arrives, exactly the buffered events with
`finalUpdateId (u) ≤ baseline.lastUpdateId` are discarded and the remaining
events are applied in arrival order (the filtered buffer is a sublist of the
buffer); the stored `lastUpdateId`, however, is never advanced after an
apply — it remains the baseline's value (with baseline `lastUpdateId = 100`
and buffered event `U = 95, u = 102`, the event is applied but `lastUpdateId`
stays 100). -/
theorem C3_filter_and_replay (data : Baseline) (buf : List DiffEvent)
    (e : DiffEvent) :
    (e ∈ validEvents data buf ↔ e ∈ buf ∧ data.lastUpdateId < e.u) ∧
    (validEvents data buf).Sublist buf ∧
    (fetchSnapshot data buf).lastUpdateId = data.lastUpdateId ∧
    (fetchSnapshot data buf).book =
      (validEvents data buf).foldl (fun s ev => processEvent ev s)
        ⟨initSide data.bids, initSide data.asks⟩ := by
  refine ⟨?_, List.filter_sublist _, rfl, rfl⟩
  simp [validEvents, List.mem_filter]

/-! ## Lemmas on the aggregation pipeline -/

theorem sumFrom_zero (vols : List ℚ) (i : ℕ) : sumFrom vols i 0 = 0 := rfl

theorem sumFrom_succ_left (vols : List ℚ) (i k : ℕ) :
    sumFrom vols i (k + 1) = vols.getD i 0 + sumFrom vols (i + 1) k := by
  unfold sumFrom
  rw [List.range_succ_eq_map, List.map_cons, List.map_map, List.sum_cons]
  congr 2
  apply List.map_congr_left
  intro t _
  simp [Function.comp, Nat.succ_eq_add_one]
  ring_nf

theorem buildBuckets_length (vols : List ℚ) (isBid : Bool) (midPrice : ℚ)
    (n i : ℕ) (cum : ℚ) :
    (buildBuckets vols isBid midPrice n i cum).length = n := by
  induction n generalizing i cum with
  | zero => rfl
  | succ n ih => simp [buildBuckets, ih]

theorem buildBuckets_getElem? (vols : List ℚ) (isBid : Bool) (midPrice : ℚ)
    (n i : ℕ) (cum : ℚ) (j : ℕ) (hj : j < n) :
    (buildBuckets vols isBid midPrice n i cum)[j]? =
      some { price := if isBid then midPrice - (i + j) * AGGREGATION_BUCKET_SIZE
                      else midPrice + (i + j) * AGGREGATION_BUCKET_SIZE
             quantity := vols.getD (i + j) 0
             total := cum + sumFrom vols i (j + 1) } := by
  induction n generalizing i cum j with
  | zero => omega
  | succ n ih =>
    cases j with
    | zero =>
      simp [buildBuckets, sumFrom_succ_left, sumFrom_zero]
    | succ j =>
      have hj' : j < n := Nat.lt_of_succ_lt_succ hj
      have hidx : i + 1 + j = i + (j + 1) := by omega
      rw [show buildBuckets vols isBid midPrice (n + 1) i cum =
          ({ price := if isBid then midPrice - i * AGGREGATION_BUCKET_SIZE
                      else midPrice + i * AGGREGATION_BUCKET_SIZE
             quantity := vols.getD i 0
             total := cum + vols.getD i 0 } : OrderEntry) ::
            buildBuckets vols isBid midPrice n (i + 1) (cum + vols.getD i 0)
          from rfl,
        List.getElem?_cons_succ, ih (i + 1) (cum + vols.getD i 0) j hj', hidx,
        sumFrom_succ_left vols i (j + 1), add_assoc,
        show ((i + 1 : ℕ) : ℚ) + (j : ℚ) = (i : ℚ) + ((j + 1 : ℕ) : ℚ) by
          push_cast; ring]

theorem bucketSum_cons (pr : ℚ × ℚ) (l : List (ℚ × ℚ)) (midPrice : ℚ) (k : ℕ) :
    bucketSum (pr :: l) midPrice k =
      (if bucketIndex midPrice pr.1 = (k : ℤ) then pr.2 else 0) +
        bucketSum l midPrice k := by
  unfold bucketSum
  rw [List.filter_cons]
  by_cases h : bucketIndex midPrice pr.1 = (k : ℤ) <;> simp [h]

theorem addToBucket_length (midPrice : ℚ) (b : List ℚ) (pr : ℚ × ℚ) :
    (addToBucket midPrice b pr).length = b.length := by
  simp only [addToBucket]
  split <;> simp

theorem foldl_addToBucket_length (l : List (ℚ × ℚ)) (midPrice : ℚ)
    (b : List ℚ) : (l.foldl (addToBucket midPrice) b).length = b.length := by
  induction l generalizing b with
  | nil => rfl
  | cons pr l ih => rw [List.foldl_cons, ih, addToBucket_length]

theorem foldl_addToBucket_getD (l : List (ℚ × ℚ)) (midPrice : ℚ)
    (b : List ℚ) (hb : b.length = VISUAL_BUCKETS) (k : ℕ)
    (hk : k < VISUAL_BUCKETS) :
    (l.foldl (addToBucket midPrice) b).getD k 0 =
      b.getD k 0 + bucketSum l midPrice k := by
  induction l generalizing b with
  | nil => simp [bucketSum]
  | cons pr l ih =>
    rw [List.foldl_cons,
      ih (addToBucket midPrice b pr) (by rw [addToBucket_length]; exact hb),
      bucketSum_cons]
    have harw : (addToBucket midPrice b pr).getD k 0 =
        b.getD k 0 + (if bucketIndex midPrice pr.1 = (k : ℤ) then pr.2 else 0) := by
      simp only [addToBucket]
      by_cases hg : 0 ≤ bucketIndex midPrice pr.1 ∧
          bucketIndex midPrice pr.1 < (VISUAL_BUCKETS : ℤ)
      · rw [if_pos hg]
        by_cases heq : (bucketIndex midPrice pr.1).toNat = k
        · have hik : bucketIndex midPrice pr.1 = (k : ℤ) := by
            rw [← heq, Int.toNat_of_nonneg hg.1]
          rw [List.getD_eq_getElem?_getD, heq,
            List.getElem?_set_self (by rw [hb]; exact hk)]
          simp [hik, List.getD_eq_getElem?_getD]
        · have hik : bucketIndex midPrice pr.1 ≠ (k : ℤ) := by
            intro hh
            exact heq (by rw [hh]; exact Int.toNat_ofNat _ ▸ rfl)
          rw [List.getD_eq_getElem?_getD, List.getElem?_set_ne heq,
            ← List.getD_eq_getElem?_getD]
          simp [hik]
      · rw [if_neg hg]
        have hik : bucketIndex midPrice pr.1 ≠ (k : ℤ) := by
          intro hh
          apply hg
          constructor
          · rw [hh]; exact Int.ofNat_nonneg k
          · rw [hh]; exact_mod_cast hk
        simp [hik]
    rw [harw]
    ring

theorem bucketVolumes_getD (l : List (ℚ × ℚ)) (midPrice : ℚ) (k : ℕ)
    (hk : k < VISUAL_BUCKETS) :
    (bucketVolumes l midPrice).getD k 0 = bucketSum l midPrice k := by
  unfold bucketVolumes
  rw [foldl_addToBucket_getD l midPrice _ (List.length_replicate _ _) k hk]
  simp [List.getD_eq_getElem?_getD, List.getElem?_replicate, hk]

theorem aggregateOrders_length (l : List (ℚ × ℚ)) (isBid : Bool)
    (midPrice : ℚ) : (aggregateOrders l isBid midPrice).length = VISUAL_BUCKETS :=
  buildBuckets_length _ _ _ _ _ _

theorem cumBucketSum_eq_sumFrom (l : List (ℚ × ℚ)) (midPrice : ℚ) (j : ℕ)
    (hj : j < VISUAL_BUCKETS) :
    cumBucketSum l midPrice j = sumFrom (bucketVolumes l midPrice) 0 (j + 1) := by
  unfold cumBucketSum sumFrom
  congr 1
  apply List.map_congr_left
  intro t ht
  rw [List.mem_range] at ht
  rw [Nat.zero_add, bucketVolumes_getD l midPrice t (lt_of_lt_of_le ht hj)]

theorem aggregateOrders_getElem? (l : List (ℚ × ℚ)) (isBid : Bool)
    (midPrice : ℚ) (j : ℕ) (hj : j < VISUAL_BUCKETS) :
    (aggregateOrders l isBid midPrice)[j]? =
      some { price := if isBid then midPrice - j * AGGREGATION_BUCKET_SIZE
                      else midPrice + j * AGGREGATION_BUCKET_SIZE
             quantity := bucketSum l midPrice j
             total := cumBucketSum l midPrice j } := by
  unfold aggregateOrders
  rw [buildBuckets_getElem? _ _ _ _ _ _ j hj]
  congr 2
  · simp
  · rw [Nat.zero_add, bucketVolumes_getD l midPrice j hj]
  · rw [zero_add, cumBucketSum_eq_sumFrom l midPrice j hj]

/-! ## Claim C4 -/

/-- C4 counterexample: the claim quantifies over any raw side map, but the
store can hold negative quantities (`processEvent` stores any non-zero
quantity verbatim); with raw map `{102 ↦ -1}` and anchor 100 on the ask
side, bucket 1's cumulative total `-1` is strictly below bucket 0's `0`. -/
theorem C4_counterexample :
    ((aggregateOrders [((102 : ℚ), (-1 : ℚ))] false 100).getD 1
        ⟨0, 0, 0⟩).total <
      ((aggregateOrders [((102 : ℚ), (-1 : ℚ))] false 100).getD 0
        ⟨0, 0, 0⟩).total := by
  have hb : bucketIndex 100 102 = (1 : ℤ) := by
    unfold bucketIndex AGGREGATION_BUCKET_SIZE
    norm_num
  have h0 := aggregateOrders_getElem? [((102 : ℚ), (-1 : ℚ))] false 100 0
    (by decide)
  have h1 := aggregateOrders_getElem? [((102 : ℚ), (-1 : ℚ))] false 100 1
    (by decide)
  rw [List.getD_eq_getElem?_getD, h1, List.getD_eq_getElem?_getD, h0]
  simp only [Option.getD_some]
  show cumBucketSum [((102 : ℚ), (-1 : ℚ))] 100 1 <
    cumBucketSum [((102 : ℚ), (-1 : ℚ))] 100 0
  have hs0 : bucketSum [((102 : ℚ), (-1 : ℚ))] 100 0 = 0 := by
    simp [bucketSum, hb]
  have hs1 : bucketSum [((102 : ℚ), (-1 : ℚ))] 100 1 = -1 := by
    simp [bucketSum, hb]
  have hc0 : cumBucketSum [((102 : ℚ), (-1 : ℚ))] 100 0 = 0 := by
    simp [cumBucketSum, List.range_succ, hs0]
  have hc1 : cumBucketSum [((102 : ℚ), (-1 : ℚ))] 100 1 = -1 := by
    simp [cumBucketSum, List.range_succ, hs0, hs1]
  rw [hc0, hc1]
  norm_num

/-- C4 (amended): for any raw side map all of whose quantities are
non-negative (as they are whenever the stream only delivers non-negative
quantities) and any anchor, the Aggregator's cumulative totals are
monotonically non-decreasing in bucket index. -/
theorem C4_cumulative_monotone_for_nonneg (l : List (ℚ × ℚ)) (isBid : Bool)
    (a : ℚ) (i : ℕ) (hq : ∀ pr ∈ l, 0 ≤ pr.2) (hi : i + 1 < VISUAL_BUCKETS) :
    ((aggregateOrders l isBid a).getD i ⟨0, 0, 0⟩).total ≤
      ((aggregateOrders l isBid a).getD (i + 1) ⟨0, 0, 0⟩).total := by
  have h1 := aggregateOrders_getElem? l isBid a i (by omega)
  have h2 := aggregateOrders_getElem? l isBid a (i + 1) hi
  rw [List.getD_eq_getElem?_getD, h1, List.getD_eq_getElem?_getD, h2]
  simp only [Option.getD_some]
  show cumBucketSum l a i ≤ cumBucketSum l a (i + 1)
  have hstep : cumBucketSum l a (i + 1) =
      cumBucketSum l a i + bucketSum l a (i + 1) := by
    unfold cumBucketSum
    rw [List.range_succ, List.map_append, List.sum_append]
    simp
  have hnn : 0 ≤ bucketSum l a (i + 1) := by
    unfold bucketSum
    apply List.sum_nonneg
    intro x hx
    rw [List.mem_map] at hx
    obtain ⟨pr, hpr, hx⟩ := hx
    rw [← hx]
    exact hq pr (List.mem_filter.mp hpr).1
  rw [hstep]
  linarith

/-- Witness for the amended C4 at raw map `{99 ↦ 1}`, anchor 100, bid side,
buckets 0 and 1. -/
theorem C4_cumulative_monotone_for_nonneg_instance :
    ((aggregateOrders [((99 : ℚ), (1 : ℚ))] true 100).getD 0 ⟨0, 0, 0⟩).total ≤
      ((aggregateOrders [((99 : ℚ), (1 : ℚ))] true 100).getD 1
        ⟨0, 0, 0⟩).total :=
  C4_cumulative_monotone_for_nonneg [((99 : ℚ), (1 : ℚ))] true 100 0
    (by
      intro pr hpr
      rw [List.mem_singleton] at hpr
      subst hpr
      norm_num)
    (by decide)

/-! ## Claim C5 -/

/-- C5: for any raw side map and anchor, both sides' outputs have exactly
`VISUAL_BUCKETS` buckets; bucket `j`'s price is `anchor − j·bucketWidth` on
the bid side and `anchor + j·bucketWidth` on the ask side; bucket `j`'s raw
quantity is exactly the summed quantity of the raw levels whose index
`⌊|price − anchor| / bucketWidth⌋` equals `j` (so each in-range level is
added to its bucket), and appending a level whose index is `≥ VISUAL_BUCKETS`
leaves the output unchanged (out-of-range levels are silently dropped). -/
theorem C5_bucket_shape (l : List (ℚ × ℚ)) (a : ℚ) (j : ℕ) (p q : ℚ)
    (hj : j < VISUAL_BUCKETS)
    (hp : (VISUAL_BUCKETS : ℤ) ≤ bucketIndex a p) :
    (aggregateOrders l true a).length = VISUAL_BUCKETS ∧
    (aggregateOrders l false a).length = VISUAL_BUCKETS ∧
    (aggregateOrders l true a)[j]? =
      some { price := a - j * AGGREGATION_BUCKET_SIZE
             quantity := bucketSum l a j
             total := cumBucketSum l a j } ∧
    (aggregateOrders l false a)[j]? =
      some { price := a + j * AGGREGATION_BUCKET_SIZE
             quantity := bucketSum l a j
             total := cumBucketSum l a j } ∧
    aggregateOrders (l ++ [(p, q)]) true a = aggregateOrders l true a ∧
    aggregateOrders (l ++ [(p, q)]) false a = aggregateOrders l false a := by
  have hvols : bucketVolumes (l ++ [(p, q)]) a = bucketVolumes l a := by
    unfold bucketVolumes
    rw [List.foldl_append, List.foldl_cons, List.foldl_nil]
    simp only [addToBucket]
    rw [if_neg]
    intro hcon
    omega
  refine ⟨aggregateOrders_length l true a, aggregateOrders_length l false a,
    ?_, ?_, ?_, ?_⟩
  · rw [aggregateOrders_getElem? l true a j hj]; simp
  · rw [aggregateOrders_getElem? l false a j hj]; simp
  · unfold aggregateOrders; rw [hvols]
  · unfold aggregateOrders; rw [hvols]

/-- Witness for C5 at raw map `{99 ↦ 1}`, anchor 100, bucket 0, and
out-of-range level `(500, 3)` (index 200). -/
theorem C5_bucket_shape_instance :
    (aggregateOrders [((99 : ℚ), (1 : ℚ))] true 100).length = VISUAL_BUCKETS ∧
    (aggregateOrders [((99 : ℚ), (1 : ℚ))] false 100).length = VISUAL_BUCKETS ∧
    (aggregateOrders [((99 : ℚ), (1 : ℚ))] true 100)[(0 : ℕ)]? =
      some { price := 100 - (0 : ℕ) * AGGREGATION_BUCKET_SIZE
             quantity := bucketSum [((99 : ℚ), (1 : ℚ))] 100 0
             total := cumBucketSum [((99 : ℚ), (1 : ℚ))] 100 0 } ∧
    (aggregateOrders [((99 : ℚ), (1 : ℚ))] false 100)[(0 : ℕ)]? =
      some { price := 100 + (0 : ℕ) * AGGREGATION_BUCKET_SIZE
             quantity := bucketSum [((99 : ℚ), (1 : ℚ))] 100 0
             total := cumBucketSum [((99 : ℚ), (1 : ℚ))] 100 0 } ∧
    aggregateOrders ([((99 : ℚ), (1 : ℚ))] ++ [(500, 3)]) true 100 =
      aggregateOrders [((99 : ℚ), (1 : ℚ))] true 100 ∧
    aggregateOrders ([((99 : ℚ), (1 : ℚ))] ++ [(500, 3)]) false 100 =
      aggregateOrders [((99 : ℚ), (1 : ℚ))] false 100 :=
  C5_bucket_shape [((99 : ℚ), (1 : ℚ))] 100 0 500 3 (by decide)
    (by unfold bucketIndex AGGREGATION_BUCKET_SIZE VISUAL_BUCKETS; norm_num)

/-! ## Claim C10 -/

theorem bucketSum_append (l l' : List (ℚ × ℚ)) (midPrice : ℚ) (i : ℕ) :
    bucketSum (l ++ l') midPrice i =
      bucketSum l midPrice i + bucketSum l' midPrice i := by
  unfold bucketSum
  rw [List.filter_append, List.map_append, List.sum_append]

/-- C10: the Aggregator buckets by absolute distance from the anchor without
checking which side of the anchor a level lies on.  For any raw side map
containing a level `(p, q)` whose distance index `i` is in range, bucket `i`
of BOTH sides' outputs receives `q` on top of the other levels' contributions
(the level is never dropped); and when the level is on the wrong side of the
anchor — strictly above it on the bid side, or strictly below it on the ask
side — the reported price of that bucket (`anchor − i·width` for bids,
`anchor + i·width` for asks) lies at the anchor or mirrored on the opposite
side of the anchor from the level's actual price. -/
theorem C10_side_ignored_mirrored (a p q : ℚ) (i : ℕ) (l₁ l₂ : List (ℚ × ℚ))
    (hidx : bucketIndex a p = (i : ℤ)) (hi : i < VISUAL_BUCKETS) :
    bucketSum (l₁ ++ (p, q) :: l₂) a i =
      bucketSum l₁ a i + q + bucketSum l₂ a i ∧
    (aggregateOrders (l₁ ++ (p, q) :: l₂) true a)[i]? =
      some { price := a - i * AGGREGATION_BUCKET_SIZE
             quantity := bucketSum (l₁ ++ (p, q) :: l₂) a i
             total := cumBucketSum (l₁ ++ (p, q) :: l₂) a i } ∧
    (aggregateOrders (l₁ ++ (p, q) :: l₂) false a)[i]? =
      some { price := a + i * AGGREGATION_BUCKET_SIZE
             quantity := bucketSum (l₁ ++ (p, q) :: l₂) a i
             total := cumBucketSum (l₁ ++ (p, q) :: l₂) a i } ∧
    (a < p → a - i * AGGREGATION_BUCKET_SIZE ≤ a ∧
      a - i * AGGREGATION_BUCKET_SIZE < p) ∧
    (p < a → a ≤ a + i * AGGREGATION_BUCKET_SIZE ∧
      p < a + i * AGGREGATION_BUCKET_SIZE) := by
  have hw : (0 : ℚ) ≤ (i : ℚ) * AGGREGATION_BUCKET_SIZE :=
    mul_nonneg (Nat.cast_nonneg i) (by norm_num [AGGREGATION_BUCKET_SIZE])
  refine ⟨?_, ?_, ?_, ?_, ?_⟩
  · rw [bucketSum_append, bucketSum_cons,
      if_pos (show bucketIndex a (p, q).1 = (i : ℤ) from hidx)]
    ring
  · rw [aggregateOrders_getElem? _ true a i hi]
    simp
  · rw [aggregateOrders_getElem? _ false a i hi]
    simp
  · intro hap
    exact ⟨sub_le_self a hw, lt_of_le_of_lt (sub_le_self a hw) hap⟩
  · intro hpa
    exact ⟨le_add_of_nonneg_right hw,
      lt_of_lt_of_le hpa (le_add_of_nonneg_right hw)⟩

/-- Witness for C10 at both anomalous directions: anchor 100 with the
bid-side level `(103, 5)` strictly above the anchor sitting between levels
`(99, 1)` and `(102, 2)` (index 1, its quantity added on top of the `(102,2)`
contribution, bucket priced 98 ≤ 100 < 103), and the ask-side level `(97, 4)`
strictly below the anchor (index 1, bucket priced 102 ≥ 100 > 97). -/
theorem C10_side_ignored_mirrored_instance :
    bucketSum ([((99 : ℚ), (1 : ℚ))] ++ ((103 : ℚ), (5 : ℚ)) ::
        [((102 : ℚ), (2 : ℚ))]) 100 1 =
      bucketSum [((99 : ℚ), (1 : ℚ))] 100 1 + 5 +
        bucketSum [((102 : ℚ), (2 : ℚ))] 100 1 ∧
    ((100 : ℚ) - (1 : ℕ) * AGGREGATION_BUCKET_SIZE ≤ 100 ∧
      (100 : ℚ) - (1 : ℕ) * AGGREGATION_BUCKET_SIZE < 103) ∧
    (aggregateOrders ([] ++ ((97 : ℚ), (4 : ℚ)) :: []) false 100)[(1 : ℕ)]? =
      some { price := 100 + (1 : ℕ) * AGGREGATION_BUCKET_SIZE
             quantity := bucketSum ([] ++ ((97 : ℚ), (4 : ℚ)) :: []) 100 1
             total := cumBucketSum ([] ++ ((97 : ℚ), (4 : ℚ)) :: []) 100 1 } ∧
    ((100 : ℚ) ≤ 100 + (1 : ℕ) * AGGREGATION_BUCKET_SIZE ∧
      (97 : ℚ) < 100 + (1 : ℕ) * AGGREGATION_BUCKET_SIZE) := by
  have h1 := C10_side_ignored_mirrored 100 103 5 1 [((99 : ℚ), (1 : ℚ))]
    [((102 : ℚ), (2 : ℚ))]
    (by unfold bucketIndex AGGREGATION_BUCKET_SIZE; norm_num) (by decide)
  have h2 := C10_side_ignored_mirrored 100 97 4 1 [] []
    (by unfold bucketIndex AGGREGATION_BUCKET_SIZE; norm_num) (by decide)
  exact ⟨h1.1, h1.2.2.2.1 (by norm_num), h2.2.2.1,
    h2.2.2.2.2 (by norm_num)⟩

/-! ## Lemmas on the best-price scans of emitUpdate -/

theorem foldl_bestBid_spec (l : ListStore) (c : ℚ) :
    (l.foldl (fun acc pr => if pr.1 > acc then pr.1 else acc) c = c ∨
      ∃ pr ∈ l, l.foldl (fun acc pr => if pr.1 > acc then pr.1 else acc) c = pr.1) ∧
    c ≤ l.foldl (fun acc pr => if pr.1 > acc then pr.1 else acc) c ∧
    ∀ pr ∈ l, pr.1 ≤ l.foldl (fun acc pr => if pr.1 > acc then pr.1 else acc) c := by
  induction l generalizing c with
  | nil => simp
  | cons hd tl ih =>
    rw [List.foldl_cons]
    rcases ih (if hd.1 > c then hd.1 else c) with ⟨hmem, hle, hub⟩
    have hinit : c ≤ (if hd.1 > c then hd.1 else c) := by
      by_cases hh : hd.1 > c
      · rw [if_pos hh]; exact le_of_lt hh
      · rw [if_neg hh]
    have hhd : hd.1 ≤ (if hd.1 > c then hd.1 else c) := by
      by_cases hh : hd.1 > c
      · rw [if_pos hh]
      · rw [if_neg hh]; exact le_of_not_lt hh
    refine ⟨?_, le_trans hinit hle, ?_⟩
    · rcases hmem with heq | ⟨pr, hpr, heq⟩
      · by_cases hh : hd.1 > c
        · right
          exact ⟨hd, List.mem_cons_self hd tl, by rw [heq, if_pos hh]⟩
        · left
          rw [heq, if_neg hh]
      · right
        exact ⟨pr, List.mem_cons_of_mem hd hpr, heq⟩
    · intro pr hpr
      rcases List.mem_cons.mp hpr with heq | htl
      · rw [heq]
        exact le_trans hhd hle
      · exact hub pr htl

theorem foldl_bestBid_const (l : ListStore) (c : ℚ)
    (h : ∀ pr ∈ l, ¬ pr.1 > c) :
    l.foldl (fun acc pr => if pr.1 > acc then pr.1 else acc) c = c := by
  induction l with
  | nil => rfl
  | cons hd tl ih =>
    rw [List.foldl_cons, if_neg (h hd (List.mem_cons_self hd tl))]
    exact ih fun pr hpr => h pr (List.mem_cons_of_mem hd hpr)

theorem foldl_bestAsk_some (l : ListStore) (c : ℚ) :
    ∃ m, l.foldl (fun acc pr =>
        match acc with
        | none => some pr.1
        | some m => if pr.1 < m then some pr.1 else acc) (some c) = some m ∧
      (m = c ∨ ∃ pr ∈ l, pr.1 = m) ∧ m ≤ c ∧ ∀ pr ∈ l, m ≤ pr.1 := by
  induction l generalizing c with
  | nil => exact ⟨c, rfl, Or.inl rfl, le_refl c, by simp⟩
  | cons hd tl ih =>
    rw [List.foldl_cons]
    by_cases hh : hd.1 < c
    · have hstep : (match some c with
          | none => some hd.1
          | some m => if hd.1 < m then some hd.1 else some c) = some hd.1 := by
        simp [hh]
      rw [hstep]
      rcases ih hd.1 with ⟨m, hm, hmem, hmle, hub⟩
      refine ⟨m, hm, ?_, le_trans hmle (le_of_lt hh), ?_⟩
      · rcases hmem with heq | ⟨pr, hpr, heq⟩
        · right; exact ⟨hd, List.mem_cons_self hd tl, heq.symm⟩
        · right; exact ⟨pr, List.mem_cons_of_mem hd hpr, heq⟩
      · intro pr hpr
        rcases List.mem_cons.mp hpr with heq | htl
        · rw [heq]; exact hmle
        · exact hub pr htl
    · have hstep : (match some c with
          | none => some hd.1
          | some m => if hd.1 < m then some hd.1 else some c) = some c := by
        simp [hh]
      rw [hstep]
      rcases ih c with ⟨m, hm, hmem, hmle, hub⟩
      refine ⟨m, hm, ?_, hmle, ?_⟩
      · rcases hmem with heq | ⟨pr, hpr, heq⟩
        · left; exact heq
        · right; exact ⟨pr, List.mem_cons_of_mem hd hpr, heq⟩
      · intro pr hpr
        rcases List.mem_cons.mp hpr with heq | htl
        · rw [heq]
          exact le_trans hmle (le_of_not_lt hh)
        · exact hub pr htl

theorem bestAsk_spec (l : ListStore) (hl : l ≠ []) :
    ∃ m, bestAsk l = some m ∧ (∃ pr ∈ l, pr.1 = m) ∧ ∀ pr ∈ l, m ≤ pr.1 := by
  cases l with
  | nil => exact absurd rfl hl
  | cons hd tl =>
    show ∃ m, tl.foldl _ (some hd.1) = some m ∧ _
    rcases foldl_bestAsk_some tl hd.1 with ⟨m, hm, hmem, hmle, hub⟩
    refine ⟨m, hm, ?_, ?_⟩
    · rcases hmem with heq | ⟨pr, hpr, heq⟩
      · exact ⟨hd, List.mem_cons_self hd tl, heq.symm⟩
      · exact ⟨pr, List.mem_cons_of_mem hd hpr, heq⟩
    · intro pr hpr
      rcases List.mem_cons.mp hpr with heq | htl
      · rw [heq]; exact hmle
      · exact hub pr htl

/-! ## Claim C6 -/

/-- C6: `emitUpdate` produces no snapshot whenever either side map is empty,
and every snapshot it does produce has mid price `(best bid + best ask) / 2`
where best bid is the maximum bid-map key and best ask the minimum ask-map
key (stated as: any upper bound attained in the bid keys and any lower bound
attained in the ask keys gives the mid price). -/
theorem C6_mid_price_formula (now : ℤ) (bid ask : ListStore) :
    ((bid = [] ∨ ask = []) → emitUpdate now bid ask = none) ∧
    (∀ v bb ba, emitUpdate now bid ask = some v →
      bb ∈ bid.map Prod.fst → (∀ x ∈ bid.map Prod.fst, x ≤ bb) →
      ba ∈ ask.map Prod.fst → (∀ x ∈ ask.map Prod.fst, ba ≤ x) →
      v.midPrice = (bb + ba) / 2) := by
  constructor
  · intro h
    unfold emitUpdate
    rw [if_pos]
    rcases h with h | h <;> simp [h]
  · intro v bb ba hv hbbmem hbbub hbamem hbalb
    unfold emitUpdate at hv
    by_cases hempty : bid.isEmpty = true ∨ ask.isEmpty = true
    · rw [if_pos hempty] at hv
      exact absurd hv (by simp)
    · rw [if_neg hempty] at hv
      cases hba : bestAsk ask with
      | none => rw [hba] at hv; exact absurd hv (by simp)
      | some m =>
        rw [hba] at hv
        by_cases hz : bestBid bid = 0
        · simp [hz] at hv
        · dsimp only at hv
          rw [if_neg hz] at hv
          have hveq := (Option.some.inj hv).symm
          have hbidspec := foldl_bestBid_spec bid 0
          have hbb : bestBid bid = bb := by
            rcases hbidspec.1 with h0 | ⟨pr, hpr, heq⟩
            · exact absurd h0 hz
            · apply le_antisymm
              · rw [show bestBid bid = pr.1 from heq]
                exact hbbub pr.1 (List.mem_map.mpr ⟨pr, hpr, rfl⟩)
              · rcases List.mem_map.mp hbbmem with ⟨pr2, hpr2, hpe⟩
                rw [← hpe]
                exact hbidspec.2.2 pr2 hpr2
          have hask : ask ≠ [] := by
            intro hcon
            exact hempty (Or.inr (by rw [hcon]; rfl))
          rcases bestAsk_spec ask hask with ⟨m2, hm2, ⟨pr3, hpr3, hpe3⟩, hlb⟩
          have hmm : m2 = m := Option.some.inj (hm2.symm.trans hba)
          have hmba : m = ba := by
            apply le_antisymm
            · rcases List.mem_map.mp hbamem with ⟨pr4, hpr4, hpe4⟩
              rw [← hpe4, ← hmm]
              exact hlb pr4 hpr4
            · have hba2 : ba ≤ pr3.1 :=
                hbalb pr3.1 (List.mem_map.mpr ⟨pr3, hpr3, rfl⟩)
              rw [hpe3, hmm] at hba2
              exact hba2
          rw [hveq]
          show (bestBid bid + m) / 2 = (bb + ba) / 2
          rw [hbb, hmba]

/-- Witness for C6: empty bid side suppresses emission; bid map `{99 ↦ 1}`
and ask map `{101 ↦ 1}` emit a snapshot with mid price 100; and a book whose
ask side was emptied suppresses emission. -/
theorem C6_mid_price_formula_instance :
    emitUpdate 0 [] [((101 : ℚ), (1 : ℚ))] = none ∧
    emitUpdate 0 [((99 : ℚ), (1 : ℚ))] [] = none ∧
    (emitUpdate 0 [((99 : ℚ), (1 : ℚ))] [((101 : ℚ), (1 : ℚ))]).map
      OrderBookSnapshot.midPrice = some 100 := by
  refine ⟨(C6_mid_price_formula 0 [] [((101 : ℚ), (1 : ℚ))]).1 (Or.inl rfl),
    (C6_mid_price_formula 0 [((99 : ℚ), (1 : ℚ))] []).1 (Or.inr rfl), ?_⟩
  cases hv : emitUpdate 0 [((99 : ℚ), (1 : ℚ))] [((101 : ℚ), (1 : ℚ))] with
  | none =>
    norm_num [emitUpdate, bestAsk, bestBid] at hv
    simp at hv
  | some v =>
    have hm := (C6_mid_price_formula 0 [((99 : ℚ), (1 : ℚ))]
        [((101 : ℚ), (1 : ℚ))]).2 v 99 101 hv (by decide) (by decide)
        (by decide) (by decide)
    rw [show Option.map OrderBookSnapshot.midPrice (some v) =
        some v.midPrice from rfl, hm]
    norm_num

/-! ## Claim C9 -/

/-- C9: emission is withheld in strictly more cases than an empty side map.
Because the best-bid scan is seeded with 0, any non-empty bid map whose keys
are all ≤ 0 leaves the scan at its seed and `emitUpdate` returns no snapshot,
even though neither side map is empty. -/
theorem C9_nonpositive_bid_keys_withhold (now : ℤ) (bid ask : ListStore)
    (_hb : bid ≠ []) (_ha : ask ≠ []) (hnp : ∀ pr ∈ bid, pr.1 ≤ 0) :
    emitUpdate now bid ask = none := by
  have hzero : bestBid bid = 0 :=
    foldl_bestBid_const bid 0 fun pr hpr => not_lt.mpr (hnp pr hpr)
  unfold emitUpdate
  by_cases hempty : bid.isEmpty = true ∨ ask.isEmpty = true
  · rw [if_pos hempty]
  · rw [if_neg hempty]
    cases hba : bestAsk ask with
    | none => rfl
    | some m => simp [hzero]

/-- Witness for C9: bid map `{0 ↦ 1}` (non-empty, sole key 0) and ask map
`{101 ↦ 1}` (non-empty) produce no emission. -/
theorem C9_nonpositive_bid_keys_withhold_instance :
    emitUpdate 0 [((0 : ℚ), (1 : ℚ))] [((101 : ℚ), (1 : ℚ))] = none :=
  C9_nonpositive_bid_keys_withhold 0 [((0 : ℚ), (1 : ℚ))]
    [((101 : ℚ), (1 : ℚ))] (by decide) (by decide) (by decide)

/-! ## Lemmas on the emission throttle -/

theorem onDepthMessage_processing (s : StreamState) (e : DiffEvent) :
    (onDepthMessage s e).processing = true := by
  unfold onDepthMessage
  by_cases hp : s.processing <;> simp [hp]

theorem onDepthMessage_book (s : StreamState) (e : DiffEvent) :
    (onDepthMessage s e).book = processEvent e s.book := by
  unfold onDepthMessage
  by_cases hp : s.processing <;> simp [hp]

theorem foldl_onDepthMessage_processing (events : List DiffEvent)
    (s : StreamState) (h : s.processing = true) :
    (events.foldl onDepthMessage s).processing = true := by
  induction events generalizing s with
  | nil => exact h
  | cons e es ih =>
    rw [List.foldl_cons]
    exact ih _ (onDepthMessage_processing s e)

theorem foldl_onDepthMessage_inv (events : List DiffEvent) (s : StreamState)
    (h : s.scheduled = if s.processing then 1 else 0) :
    (events.foldl onDepthMessage s).scheduled =
      if (events.foldl onDepthMessage s).processing then 1 else 0 := by
  induction events generalizing s with
  | nil => exact h
  | cons e es ih =>
    rw [List.foldl_cons]
    apply ih
    unfold onDepthMessage
    by_cases hp : s.processing
    · simp [hp, h]
    · simp [hp, h]

theorem foldl_onDepthMessage_book (events : List DiffEvent) (s : StreamState) :
    (events.foldl onDepthMessage s).book =
      events.foldl (fun b e => processEvent e b) s.book := by
  induction events generalizing s with
  | nil => rfl
  | cons e es ih =>
    rw [List.foldl_cons, List.foldl_cons, ih, onDepthMessage_book]

/-! ## Claim C8 -/

/-- C8: starting from a synchronized state with no pending emission, any
non-empty burst of `depthUpdate` events between two animation frames leaves
at most one `requestAnimationFrame` callback queued after every prefix of the
burst (exactly one after the whole burst); the book tracks every event; and
the next frame performs exactly one `emitUpdate` run on the store state after
the last event — emitting exactly the one view of that final state (one
snapshot when the final book is emittable, never one per event) — and resets
the throttle. -/
theorem C8_throttle_coalesces (s : StreamState) (events : List DiffEvent)
    (now : ℤ) (hp : s.processing = false) (hs : s.scheduled = 0)
    (hne : events ≠ []) :
    (∀ pre suf : List DiffEvent, events = pre ++ suf →
      (pre.foldl onDepthMessage s).scheduled ≤ 1) ∧
    (events.foldl onDepthMessage s).book =
      events.foldl (fun b e => processEvent e b) s.book ∧
    (events.foldl onDepthMessage s).scheduled = 1 ∧
    (displayTick now (events.foldl onDepthMessage s)).2 =
      (emitUpdate now (events.foldl onDepthMessage s).book.bidMap
        (events.foldl onDepthMessage s).book.askMap).toList ∧
    (∀ v, emitUpdate now (events.foldl onDepthMessage s).book.bidMap
        (events.foldl onDepthMessage s).book.askMap = some v →
      (displayTick now (events.foldl onDepthMessage s)).2 = [v]) ∧
    ((displayTick now (events.foldl onDepthMessage s)).1).processing = false ∧
    ((displayTick now (events.foldl onDepthMessage s)).1).scheduled = 0 := by
  have hclean : s.scheduled = if s.processing then 1 else 0 := by
    simp [hp, hs]
  have hsched1 : (events.foldl onDepthMessage s).scheduled = 1 := by
    rw [foldl_onDepthMessage_inv events s hclean]
    cases events with
    | nil => exact absurd rfl hne
    | cons e es =>
      rw [List.foldl_cons,
        foldl_onDepthMessage_processing es _ (onDepthMessage_processing s e)]
      rfl
  have hemissions : (displayTick now (events.foldl onDepthMessage s)).2 =
      (emitUpdate now (events.foldl onDepthMessage s).book.bidMap
        (events.foldl onDepthMessage s).book.askMap).toList := by
    show (List.range (events.foldl onDepthMessage s).scheduled).filterMap _ = _
    rw [hsched1]
    cases hemit : emitUpdate now (events.foldl onDepthMessage s).book.bidMap
        (events.foldl onDepthMessage s).book.askMap with
    | none => rfl
    | some v => rfl
  refine ⟨?_, foldl_onDepthMessage_book events s, hsched1, hemissions,
    ?_, rfl, rfl⟩
  · intro pre suf hsplit
    rw [foldl_onDepthMessage_inv pre s hclean]
    by_cases hp2 : (pre.foldl onDepthMessage s).processing <;> simp [hp2]
  · intro v hv
    rw [hemissions, hv]
    rfl

/-- Witness for C8: from the synchronized state with book
`bids {99 ↦ 1}, asks {101 ↦ 1}` and an idle throttle, the two-event burst
`[⟨1,2,[(98,5)],[]⟩, ⟨3,4,[(98,0)],[]⟩]` leaves exactly one queued callback,
and the frame emits exactly the single `emitUpdate` run on the final book. -/
theorem C8_throttle_coalesces_instance :
    (([⟨1, 2, [(98, 5)], []⟩, ⟨3, 4, [(98, 0)], []⟩] : List DiffEvent).foldl
      onDepthMessage ⟨⟨[(99, 1)], [(101, 1)]⟩, false, 0⟩).scheduled = 1 ∧
    (displayTick 0 (([⟨1, 2, [(98, 5)], []⟩, ⟨3, 4, [(98, 0)], []⟩] :
        List DiffEvent).foldl onDepthMessage
      ⟨⟨[(99, 1)], [(101, 1)]⟩, false, 0⟩)).2 =
      (emitUpdate 0
        (([⟨1, 2, [(98, 5)], []⟩, ⟨3, 4, [(98, 0)], []⟩] : List DiffEvent).foldl
          onDepthMessage ⟨⟨[(99, 1)], [(101, 1)]⟩, false, 0⟩).book.bidMap
        (([⟨1, 2, [(98, 5)], []⟩, ⟨3, 4, [(98, 0)], []⟩] : List DiffEvent).foldl
          onDepthMessage ⟨⟨[(99, 1)], [(101, 1)]⟩, false, 0⟩).book.askMap).toList := by
  have h := C8_throttle_coalesces ⟨⟨[(99, 1)], [(101, 1)]⟩, false, 0⟩
    [⟨1, 2, [(98, 5)], []⟩, ⟨3, 4, [(98, 0)], []⟩] 0 rfl rfl (by simp)
  exact ⟨h.2.2.1, h.2.2.2.1⟩

end OrderbookCanyon
